import Mathlib

/-!
Shallow embedding of the `paralyze` Go package and proofs about its
documented behaviour.

The package runs a list of tasks concurrently and collects, per submitted
index, a `(result, error)` pair.  The embedding models:

* a task (`Behavior`) by its terminal behaviour: it either returns a
  `(result, error)` pair or terminates abnormally with a payload
  (`panics`), mirroring `Paralyzable` functions;
* the executor `(*Paralyzer).DoContext` as a small-step machine
  (`doStep`/`runTrace`): the nondeterminism of the Go scheduler is made
  explicit as a trace of events — `launch` (the main loop acquires a
  semaphore slot and spawns the next worker) and `finish i pre` (worker
  `i`'s `select` resolves; `pre = true` means the context's `Done`
  channel won, `pre = false` means the task's own result channel won);
* the entry points `Paralyze`, `ParalyzeWithTimeout`, `ParalyzeWithCancel`
  and `ParalyzeLimit` on top of it, including the sentinel-error remapping
  loops they run after the executor returns;
* `Speculate` (the speculative racer of the package's earlier revision,
  which has no executor underneath) as a schedule-driven loop
  (`specLoop`), where each loop iteration consumes one scheduling
  decision: the stagger ticker fires (`tick`), a launched candidate's
  result is received from the shared buffered channel (`deliver j`), or a
  launched candidate's goroutine panics and brings the program down
  (`crash j`, since `makeReq` installs no `recover`).

Go `interface{}` results are modelled by `Option Val` (`none` = `nil`),
Go `error` by `Option Err`; the package's sentinel error values and the
`context` package's sentinels are constructors of `Err`, and arbitrary
task-supplied errors are `Err.user n`.
-/

/-- Task result values (`interface{}` contents); `nil` is `Option.none`
at the use sites. -/
abbrev Val := Nat

/-- Error values observable through the package: the package sentinels
(`ErrTimedOut`, `ErrCanceled`, `ErrInvalidTimeout`, `errParalyzeError`),
the `context` package sentinels (`context.DeadlineExceeded`,
`context.Canceled`), the `*ErrPanic` carrier for recovered panics, and
arbitrary task-supplied errors. -/
inductive Err where
  | timedOut
  | canceled
  | invalidTimeout
  | paralyzeInternal
  | ctxDeadlineExceeded
  | ctxCanceled
  | panicked (payload : Val)
  | user (code : Nat)
  deriving DecidableEq, Repr

/-- The terminal behaviour of one `Paralyzable` task: it either returns a
`(result, error)` pair, or terminates abnormally (panics) with a payload. -/
inductive Behavior where
  | ret (res : Option Val) (err : Option Err)
  | panics (payload : Val)
  deriving DecidableEq, Repr

/-- What worker `i` receives on the channel produced by `convert` (second
revision): `convert` runs the task under a deferred `recover`, so a normal
return is forwarded as-is and a panic is forwarded as
`ResErr{nil, &ErrPanic{r}}`. -/
def convertRecv : Behavior → Option Val × Option Err
  | .ret r e => (r, e)
  | .panics p => (none, some (.panicked p))

/-- `makeReq` (first revision, used by `Speculate`) runs the task with no
`recover`: a normal return yields the pair, a panic escapes. -/
def makeReqRun : Behavior → Except Val (Option Val × Option Err)
  | .ret r e => .ok (r, e)
  | .panics p => .error p

/-- The abnormal-termination payload of a task, if any. -/
def payloadOf? : Behavior → Option Val
  | .ret _ _ => none
  | .panics p => some p

/-- First-some choice, modelling `sync.Once` guarded assignment: an
already-captured payload is kept, otherwise the new candidate is taken. -/
def firstSome : Option Val → Option Val → Option Val
  | some p, _ => some p
  | none, q => q

/-- The kind of context a `DoContext` call runs under: `Background`
(from `Do`/`Paralyze`/`ParalyzeLimit`, whose `Done` channel never fires),
a `context.WithTimeout` context (from `ParalyzeWithTimeout`), or a
`context.WithCancel` context (from `ParalyzeWithCancel`). -/
inductive CtxKind where
  | background
  | deadline
  | cancelable
  deriving DecidableEq, Repr

/-- `ctx.Err()` as observed by a worker whose `select` was won by
`ctx.Done()`; `none` means the `Done` channel can never fire. -/
def ctxErr : CtxKind → Option Err
  | .background => none
  | .deadline => some .ctxDeadlineExceeded
  | .cancelable => some .ctxCanceled

/-- One scheduler event of a `DoContext` run: the main loop acquires a
semaphore slot and launches the next worker, or worker `i`'s `select`
resolves (`pre = true`: the context's `Done` channel won; `pre = false`:
the task's result channel won). -/
inductive Ev where
  | launch
  | finish (i : Nat) (pre : Bool)
  deriving DecidableEq, Repr

/-- The executor's shared state: `next` is the next index the main loop
will launch, `inflight` the indices holding a semaphore slot whose worker
has not yet resolved, `results`/`errors` the index-aligned output slices,
`panik` the first-writer-wins fault capture. -/
structure St where
  next : Nat
  inflight : List Nat
  results : List (Option Val)
  errors : List (Option Err)
  panik : Option Val
  deriving DecidableEq, Repr

/-- One step of the `DoContext` machine.  `launch` requires a free
semaphore slot (`inflight.length < cap`, modelling `sem <- struct{}{}`
blocking when the buffer is full) and an unlaunched task.  `finish i pre`
requires worker `i` to be in flight; with `pre = true` (the context won
the race) it records `ctx.Err()` at index `i` — invalid if the context
can never fire; with `pre = false` it records the pair received from
`convert`'s channel and offers any `*ErrPanic` payload to the
first-writer-wins capture.  Invalid events yield `none`. -/
def doStep (k : CtxKind) (cap : Nat) (tasks : List Behavior) (s : St) : Ev → Option St
  | .launch =>
    if s.next < tasks.length then
      if s.inflight.length < cap then
        some { s with next := s.next + 1, inflight := s.inflight ++ [s.next] }
      else none
    else none
  | .finish i pre =>
    if i ∈ s.inflight then
      match tasks[i]? with
      | some b =>
        if pre then
          match ctxErr k with
          | some e =>
            some { s with inflight := s.inflight.erase i,
                          errors := s.errors.set i (some e) }
          | none => none
        else
          some { s with inflight := s.inflight.erase i,
                        results := s.results.set i (convertRecv b).1,
                        errors := s.errors.set i (convertRecv b).2,
                        panik := firstSome s.panik (payloadOf? b) }
      | none => none
    else none

/-- Run a trace of scheduler events from a state; `none` if any event is
invalid in the state it is applied to. -/
def runTrace (k : CtxKind) (cap : Nat) (tasks : List Behavior) : St → List Ev → Option St
  | s, [] => some s
  | s, e :: rest =>
    match doStep k cap tasks s e with
    | some s' => runTrace k cap tasks s' rest
    | none => none

/-- The executor's initial state: nothing launched, output slices
pre-allocated to the task count and zero-filled (`make([]T, n)`). -/
def initSt (n : Nat) : St :=
  ⟨0, [], List.replicate n none, List.replicate n none, none⟩

/-- The observable outcome of a `DoContext` call: a normal return of the
two slices, or abnormal termination re-raising a captured payload. -/
inductive RunOut where
  | ok (results : List (Option Val)) (errors : List (Option Err))
  | panicked (payload : Val)
  deriving DecidableEq, Repr

/-- After the join barrier (`wg.Wait`): if the fault capture holds a
payload, `DoContext` itself panics with it, superseding the slices. -/
def finishOut (s : St) : RunOut :=
  match s.panik with
  | some p => .panicked p
  | none => .ok s.results s.errors

/-- The semaphore capacity chosen by `DoContext`: the configured
concurrency when positive, otherwise the number of tasks. -/
def capOf (concurrency : Int) (numFuncs : Nat) : Nat :=
  if 0 < concurrency then concurrency.toNat else numFuncs

/-- `(*Paralyzer).DoContext` on a complete schedule: run the trace from
the initial state; the call returns only once every task was launched and
every worker resolved (the `wg.Wait` join barrier), so traces that do not
reach that point yield `none`. -/
def DoContextRun (k : CtxKind) (concurrency : Int) (tasks : List Behavior)
    (trace : List Ev) : Option RunOut :=
  match runTrace k (capOf concurrency tasks.length) tasks (initSt tasks.length) trace with
  | some s => if s.next = tasks.length ∧ s.inflight = [] then some (finishOut s) else none
  | none => none

/-- `Paralyze` = `NewParalyzer().Do(...)` = `DoContext` under
`context.Background()` with the zero concurrency value. -/
def ParalyzeRun (tasks : List Behavior) (trace : List Ev) : Option RunOut :=
  DoContextRun .background 0 tasks trace

/-- The post-return remapping loop of `ParalyzeWithTimeout` /
`ParalyzeWithCancel`: any error equal to `src` is replaced by `tgt`,
every other error is left untouched. -/
def remapErr (src tgt : Err) : Option Err → Option Err
  | some e => if e = src then some tgt else some e
  | none => none

/-- Apply the remapping loop to a call outcome.  The loop runs only after
`DoContext` returns normally; a propagating panic is unaffected. -/
def remapOut (src tgt : Err) : RunOut → RunOut
  | .ok rs es => .ok rs (es.map (remapErr src tgt))
  | .panicked p => .panicked p

/-- `ParalyzeWithTimeout`: a zero timeout short-circuits to `Paralyze`;
otherwise the executor runs under a `context.WithTimeout` context and
`context.DeadlineExceeded` entries are remapped to `ErrTimedOut`.  The
duration is only ever compared against 0, so a negative duration takes
the timed path (with a deadline already expired on entry). -/
def ParalyzeWithTimeoutRun (timeout : Int) (tasks : List Behavior)
    (trace : List Ev) : Option RunOut :=
  if timeout = 0 then ParalyzeRun tasks trace
  else (DoContextRun .deadline 0 tasks trace).map (remapOut .ctxDeadlineExceeded .timedOut)

/-- `ParalyzeWithCancel`: the executor runs under a `context.WithCancel`
context whose cancellation is forwarded from the caller's channel, and
`context.Canceled` entries are remapped to `ErrCanceled`. -/
def ParalyzeWithCancelRun (tasks : List Behavior) (trace : List Ev) : Option RunOut :=
  (DoContextRun .cancelable 0 tasks trace).map (remapOut .ctxCanceled .canceled)

/-- `ParalyzeLimit` = `NewParalyzer(WithConcurrencyLimit(limit)).Do(...)`. -/
def ParalyzeLimitRun (limit : Int) (tasks : List Behavior) (trace : List Ev) : Option RunOut :=
  DoContextRun .background limit tasks trace

/-- One scheduling decision consumed by one iteration of `Speculate`'s
loop: the stagger ticker fires first (`tick`); the `select` receives
candidate `j`'s outcome from the shared buffered channel (`deliver j`,
valid only for an already-launched, not-yet-delivered candidate whose
goroutine actually sends, i.e. one that does not panic); or candidate
`j`'s goroutine panics, which crashes the whole program since `makeReq`
has no `recover` (`crash j`). -/
inductive SpecEv where
  | tick
  | deliver (j : Nat)
  | crash (j : Nat)
  deriving DecidableEq, Repr

/-- The observable outcome of a `Speculate` call: a normal
`(value, error)` return, or the program going down with an uncontained
panic payload. -/
inductive SpecOut where
  | ok (res : Option Val) (err : Option Err)
  | fatal (payload : Val)
  deriving DecidableEq, Repr

/-- The loop of `Speculate` over candidates `cands`.  Iteration `i` has
already launched candidates `0..i`; `delivered` lists candidates whose
outcome was already received from the shared channel.  Mirrors the Go
body: on an error with `fallbackOnError` set, the (always-true) guard
`i < len(fns)` sends the loop to the next iteration even at the last
candidate, and falling off the loop returns `errParalyzeError`.  `none`
marks a schedule that is invalid or too short. -/
def specLoop (fb : Bool) (cands : List Behavior) :
    Nat → List Nat → List SpecEv → Option SpecOut
  | _, _, [] => none
  | i, delivered, ev :: rest =>
    match ev with
    | .tick =>
      if i + 1 < cands.length then specLoop fb cands (i + 1) delivered rest
      else some (.ok none (some .paralyzeInternal))
    | .deliver j =>
      if j ≤ i ∧ j ∉ delivered then
        match cands[j]? with
        | some (.ret r e) =>
          if fb = true ∧ e ≠ none ∧ i < cands.length then
            (if i + 1 < cands.length then specLoop fb cands (i + 1) (j :: delivered) rest
             else some (.ok none (some .paralyzeInternal)))
          else some (.ok r e)
        | _ => none
      else none
    | .crash j =>
      if j ≤ i then
        match cands[j]? with
        | some (.panics p) => some (.fatal p)
        | _ => none
      else none

/-- `Speculate(after, fallbackOnError, fn, fallbacks...)`: a non-positive
stagger is rejected up front with `ErrInvalidTimeout`; otherwise the loop
starts with candidate 0 (= `fn`) launched. -/
def SpeculateRun (after : Int) (fb : Bool) (fn : Behavior) (fallbacks : List Behavior)
    (sched : List SpecEv) : Option SpecOut :=
  if after ≤ 0 then some (.ok none (some .invalidTimeout))
  else specLoop fb (fn :: fallbacks) 0 [] sched

/-! ### Invariants of the executor machine -/

/-- State invariant maintained by every `DoContext` step: the output
slices keep their allocation length; launched indices are exactly
`0..next-1`; in-flight indices are launched, distinct, and their slots
still hold the zero values; a settled index holds either the pair its
task sent through `convert`'s channel or, if the context can fire, the
context's error. -/
structure ExecInv (k : CtxKind) (tasks : List Behavior) (s : St) : Prop where
  lenR : s.results.length = tasks.length
  lenE : s.errors.length = tasks.length
  nextLe : s.next ≤ tasks.length
  flightLt : ∀ j ∈ s.inflight, j < s.next
  flightNodup : s.inflight.Nodup
  fresh : ∀ i, i < tasks.length → (s.next ≤ i ∨ i ∈ s.inflight) →
    s.results[i]? = some none ∧ s.errors[i]? = some none
  settled : ∀ i, i < s.next → i ∉ s.inflight →
    ∃ b, tasks[i]? = some b ∧
      ((s.results[i]? = some (convertRecv b).1 ∧ s.errors[i]? = some (convertRecv b).2) ∨
       (∃ e, ctxErr k = some e ∧ s.results[i]? = some none ∧ s.errors[i]? = some (some e)))

theorem initSt_inv (k : CtxKind) (tasks : List Behavior) :
    ExecInv k tasks (initSt tasks.length) := by
  refine ⟨?_, ?_, ?_, ?_, ?_, ?_, ?_⟩
  · simp [initSt]
  · simp [initSt]
  · simp [initSt]
  · intro j hj; simp [initSt] at hj
  · simp [initSt]
  · intro i hi _
    constructor <;> simpa [initSt] using List.getElem?_replicate_of_lt hi
  · intro i hi; simp [initSt] at hi

theorem doStep_inv {k : CtxKind} {cap : Nat} {tasks : List Behavior} {s s' : St} {e : Ev}
    (hs : ExecInv k tasks s) (h : doStep k cap tasks s e = some s') : ExecInv k tasks s' := by
  cases e with
  | launch =>
    simp only [doStep] at h
    split at h
    case isFalse => exact absurd h (by simp)
    case isTrue hnext =>
      split at h
      case isFalse => exact absurd h (by simp)
      case isTrue hcap =>
        rw [Option.some_inj] at h
        subst h
        refine ⟨hs.lenR, hs.lenE, hnext, ?_, ?_, ?_, ?_⟩
        · intro j hj
          rcases (by simpa using hj : j ∈ s.inflight ∨ j = s.next) with hj' | hj'
          · exact Nat.lt_succ_of_lt (hs.flightLt j hj')
          · simpa [hj'] using Nat.lt_succ_self s.next
        · have hnot : s.next ∉ s.inflight := fun hmem =>
            absurd (hs.flightLt _ hmem) (Nat.lt_irrefl s.next)
          simp [List.nodup_append, hs.flightNodup, hnot]
        · intro i hi hside
          rcases hside with hge | hmem
          · exact hs.fresh i hi (Or.inl (Nat.le_of_succ_le hge))
          · rcases (by simpa using hmem : i ∈ s.inflight ∨ i = s.next) with hm | hm
            · exact hs.fresh i hi (Or.inr hm)
            · exact hs.fresh i hi (Or.inl (le_of_eq hm.symm))
        · intro i hi hnm
          have hne : i ≠ s.next := fun he => hnm (by simp [he])
          have hi' : i < s.next := Nat.lt_of_le_of_ne (Nat.lt_succ_iff.mp hi) hne
          have hnm' : i ∉ s.inflight := fun hm => hnm (by simp [hm])
          exact hs.settled i hi' hnm'
  | finish i₀ pre =>
    simp only [doStep] at h
    split at h
    case isFalse => exact absurd h (by simp)
    case isTrue hmem =>
      have hi₀next : i₀ < s.next := hs.flightLt i₀ hmem
      have hi₀len : i₀ < tasks.length := Nat.lt_of_lt_of_le hi₀next hs.nextLe
      have hmemErase : ∀ i, i ∈ s.inflight.erase i₀ ↔ i ≠ i₀ ∧ i ∈ s.inflight :=
        fun i => hs.flightNodup.mem_erase_iff
      split at h
      case h_2 => exact absurd h (by simp)
      case h_1 b htask =>
        split at h
        case isTrue hpre =>
          split at h
          case h_2 => exact absurd h (by simp)
          case h_1 e₀ hctx =>
            rw [Option.some_inj] at h
            subst h
            refine ⟨hs.lenR, by simpa using hs.lenE, hs.nextLe, ?_,
              hs.flightNodup.erase i₀, ?_, ?_⟩
            · intro j hj
              exact hs.flightLt j (List.mem_of_mem_erase hj)
            · intro i hi hside
              have hine : i ≠ i₀ := by
                rcases hside with hge | hm
                · exact fun he => absurd (he ▸ hge) (Nat.not_le_of_lt hi₀next)
                · exact ((hmemErase i).mp hm).1
              have hside' : s.next ≤ i ∨ i ∈ s.inflight := by
                rcases hside with hge | hm
                · exact Or.inl hge
                · exact Or.inr ((hmemErase i).mp hm).2
              have hf := hs.fresh i hi hside'
              exact ⟨hf.1, by rw [List.getElem?_set_ne (Ne.symm hine)]; exact hf.2⟩
            · intro i hi hnm
              by_cases hie : i = i₀
              · subst hie
                refine ⟨b, htask, Or.inr ⟨e₀, hctx, ?_, ?_⟩⟩
                · exact (hs.fresh i hi₀len (Or.inr hmem)).1
                · rw [List.getElem?_set_eq (by rw [hs.lenE]; exact hi₀len)]
              · have hnm' : i ∉ s.inflight := fun hm => hnm ((hmemErase i).mpr ⟨hie, hm⟩)
                obtain ⟨b', hb', hchar⟩ := hs.settled i hi hnm'
                refine ⟨b', hb', ?_⟩
                rcases hchar with ⟨h1, h2⟩ | ⟨e', he', h1, h2⟩
                · exact Or.inl ⟨h1, by rw [List.getElem?_set_ne (Ne.symm hie)]; exact h2⟩
                · exact Or.inr ⟨e', he', h1,
                    by rw [List.getElem?_set_ne (Ne.symm hie)]; exact h2⟩
        case isFalse hpre =>
          rw [Option.some_inj] at h
          subst h
          refine ⟨by simpa using hs.lenR, by simpa using hs.lenE, hs.nextLe, ?_,
            hs.flightNodup.erase i₀, ?_, ?_⟩
          · intro j hj
            exact hs.flightLt j (List.mem_of_mem_erase hj)
          · intro i hi hside
            have hine : i ≠ i₀ := by
              rcases hside with hge | hm
              · exact fun he => absurd (he ▸ hge) (Nat.not_le_of_lt hi₀next)
              · exact ((hmemErase i).mp hm).1
            have hside' : s.next ≤ i ∨ i ∈ s.inflight := by
              rcases hside with hge | hm
              · exact Or.inl hge
              · exact Or.inr ((hmemErase i).mp hm).2
            have hf := hs.fresh i hi hside'
            exact ⟨by rw [List.getElem?_set_ne (Ne.symm hine)]; exact hf.1,
                   by rw [List.getElem?_set_ne (Ne.symm hine)]; exact hf.2⟩
          · intro i hi hnm
            by_cases hie : i = i₀
            · subst hie
              refine ⟨b, htask, Or.inl ⟨?_, ?_⟩⟩
              · rw [List.getElem?_set_eq (by rw [hs.lenR]; exact hi₀len)]
              · rw [List.getElem?_set_eq (by rw [hs.lenE]; exact hi₀len)]
            · have hnm' : i ∉ s.inflight := fun hm => hnm ((hmemErase i).mpr ⟨hie, hm⟩)
              obtain ⟨b', hb', hchar⟩ := hs.settled i hi hnm'
              refine ⟨b', hb', ?_⟩
              rcases hchar with ⟨h1, h2⟩ | ⟨e', he', h1, h2⟩
              · exact Or.inl ⟨by rw [List.getElem?_set_ne (Ne.symm hie)]; exact h1,
                              by rw [List.getElem?_set_ne (Ne.symm hie)]; exact h2⟩
              · exact Or.inr ⟨e', he', by rw [List.getElem?_set_ne (Ne.symm hie)]; exact h1,
                              by rw [List.getElem?_set_ne (Ne.symm hie)]; exact h2⟩

theorem runTrace_inv {k : CtxKind} {cap : Nat} {tasks : List Behavior} :
    ∀ {trace : List Ev} {s s' : St}, ExecInv k tasks s →
      runTrace k cap tasks s trace = some s' → ExecInv k tasks s' := by
  intro trace
  induction trace with
  | nil => intro s s' hs h; rw [runTrace, Option.some_inj] at h; exact h ▸ hs
  | cons e rest ih =>
    intro s s' hs h
    rw [runTrace] at h
    cases hstep : doStep k cap tasks s e with
    | none => rw [hstep] at h; exact absurd h (by simp)
    | some s₁ => rw [hstep] at h; exact ih (doStep_inv hs hstep) h

/-- A step never pushes the number of slot holders above the semaphore
capacity: a launch is only enabled below capacity, and a finish releases. -/
theorem doStep_flight_le {k : CtxKind} {cap : Nat} {tasks : List Behavior} {s s' : St} {e : Ev}
    (hcap : s.inflight.length ≤ cap) (h : doStep k cap tasks s e = some s') :
    s'.inflight.length ≤ cap := by
  cases e with
  | launch =>
    simp only [doStep] at h
    split at h
    case isFalse => exact absurd h (by simp)
    case isTrue =>
      split at h
      case isFalse => exact absurd h (by simp)
      case isTrue hlt =>
        rw [Option.some_inj] at h
        subst h
        simpa using hlt
  | finish i₀ pre =>
    simp only [doStep] at h
    split at h
    case isFalse => exact absurd h (by simp)
    case isTrue =>
      split at h
      case h_2 => exact absurd h (by simp)
      case h_1 b htask =>
        split at h
        case isTrue =>
          split at h
          case h_2 => exact absurd h (by simp)
          case h_1 e₀ hctx =>
            rw [Option.some_inj] at h
            subst h
            exact le_trans (List.length_erase_le i₀ s.inflight) hcap
        case isFalse =>
          rw [Option.some_inj] at h
          subst h
          exact le_trans (List.length_erase_le i₀ s.inflight) hcap

/-- The in-flight bound holds in every state a trace can reach. -/
theorem runTrace_flight_le {k : CtxKind} {cap : Nat} {tasks : List Behavior} :
    ∀ {trace : List Ev} {s s' : St}, s.inflight.length ≤ cap →
      runTrace k cap tasks s trace = some s' → s'.inflight.length ≤ cap := by
  intro trace
  induction trace with
  | nil => intro s s' hcap h; rw [runTrace, Option.some_inj] at h; exact h ▸ hcap
  | cons e rest ih =>
    intro s s' hcap h
    rw [runTrace] at h
    cases hstep : doStep k cap tasks s e with
    | none => rw [hstep] at h; exact absurd h (by simp)
    | some s₁ => rw [hstep] at h; exact ih (doStep_flight_le hcap hstep) h

/-- The payload a scheduler event offers to the fault capture: only a
non-preempted finish of a panicking task offers one. -/
def evCapture (tasks : List Behavior) : Ev → Option Val
  | .finish i false =>
    match tasks[i]? with
    | some b => payloadOf? b
    | none => none
  | _ => none

theorem firstSome_assoc (a b c : Option Val) :
    firstSome (firstSome a b) c = firstSome a (firstSome b c) := by
  cases a <;> cases b <;> rfl

theorem firstSome_none_right (a : Option Val) : firstSome a none = a := by
  cases a <;> rfl

/-- Each step updates the fault capture exactly by a first-writer-wins
merge with the payload (if any) the event offers. -/
theorem doStep_panik {k : CtxKind} {cap : Nat} {tasks : List Behavior} {s s' : St} {e : Ev}
    (h : doStep k cap tasks s e = some s') :
    s'.panik = firstSome s.panik (evCapture tasks e) := by
  cases e with
  | launch =>
    simp only [doStep] at h
    split at h
    case isFalse => exact absurd h (by simp)
    case isTrue =>
      split at h
      case isFalse => exact absurd h (by simp)
      case isTrue =>
        rw [Option.some_inj] at h
        subst h
        exact (firstSome_none_right s.panik).symm
  | finish i₀ pre =>
    simp only [doStep] at h
    split at h
    case isFalse => exact absurd h (by simp)
    case isTrue =>
      split at h
      case h_2 => exact absurd h (by simp)
      case h_1 b htask =>
        split at h
        case isTrue hpre =>
          split at h
          case h_2 => exact absurd h (by simp)
          case h_1 e₀ hctx =>
            rw [Option.some_inj] at h
            subst h
            have hp : pre = true := hpre
            subst hp
            exact (firstSome_none_right s.panik).symm
        case isFalse hpre =>
          rw [Option.some_inj] at h
          subst h
          have hp : pre = false := by
            cases pre
            · rfl
            · exact absurd rfl hpre
          subst hp
          simp only [evCapture, htask]

/-- Over a whole trace, the final captured payload is the first one any
event offered (first-writer-wins across the run). -/
theorem runTrace_panik {k : CtxKind} {cap : Nat} {tasks : List Behavior} :
    ∀ {trace : List Ev} {s s' : St},
      runTrace k cap tasks s trace = some s' →
      s'.panik = firstSome s.panik ((trace.filterMap (evCapture tasks)).head?) := by
  intro trace
  induction trace with
  | nil =>
    intro s s' h
    rw [runTrace, Option.some_inj] at h
    subst h
    simp [firstSome_none_right]
  | cons e rest ih =>
    intro s s' h
    rw [runTrace] at h
    cases hstep : doStep k cap tasks s e with
    | none => rw [hstep] at h; exact absurd h (by simp)
    | some s₁ =>
      rw [hstep] at h
      have h1 := ih h
      have h2 := doStep_panik hstep
      rw [h1, h2, firstSome_assoc]
      congr 1
      cases hc : evCapture tasks e <;> simp [List.filterMap_cons, hc, firstSome]

/-- Under `context.Background()` the `Done` channel never fires: a
preemption event is never a valid step. -/
theorem doStep_background_no_pre (cap : Nat) (tasks : List Behavior) (s : St) (i : Nat) :
    doStep .background cap tasks s (.finish i true) = none := by
  simp only [doStep]
  split
  case isFalse => rfl
  case isTrue =>
    cases htask : tasks[i]? with
    | none => rfl
    | some b => simp [ctxErr]

/-- A trace containing any preemption event is invalid for a
`Background` run: the cancellation signal never fires there. -/
theorem runTrace_background_no_pre (cap : Nat) (tasks : List Behavior) :
    ∀ (trace : List Ev) (s : St) (i : Nat), Ev.finish i true ∈ trace →
      runTrace .background cap tasks s trace = none := by
  intro trace
  induction trace with
  | nil => intro s i hmem; exact absurd hmem (by simp)
  | cons e rest ih =>
    intro s i hmem
    rw [runTrace]
    rcases List.mem_cons.mp hmem with he | he
    · rw [← he, doStep_background_no_pre]
    · cases hstep : doStep .background cap tasks s e with
      | none => rfl
      | some s₁ => exact ih s₁ i he

/-- Shape of a successful launch step: it was enabled (an unlaunched
task and a free slot) and only advances `next` and appends to the
in-flight list. -/
theorem doStep_launch_shape {k : CtxKind} {cap : Nat} {tasks : List Behavior} {s s' : St}
    (h : doStep k cap tasks s .launch = some s') :
    s.next < tasks.length ∧ s.inflight.length < cap ∧
    s' = { s with next := s.next + 1, inflight := s.inflight ++ [s.next] } := by
  simp only [doStep] at h
  split at h
  case isFalse => exact absurd h (by simp)
  case isTrue hnext =>
    split at h
    case isFalse => exact absurd h (by simp)
    case isTrue hcap =>
      rw [Option.some_inj] at h
      exact ⟨hnext, hcap, h.symm⟩

/-- Shape of a successful finish step: the worker was in flight and is
released, and the slots change according to which side of the `select`
won — the context's error on preemption, the task's channel pair (with
the fault-capture offer) otherwise. -/
theorem doStep_finish_shape {k : CtxKind} {cap : Nat} {tasks : List Behavior} {s s' : St}
    {j : Nat} {pre : Bool} (h : doStep k cap tasks s (.finish j pre) = some s') :
    j ∈ s.inflight ∧ s'.next = s.next ∧ s'.inflight = s.inflight.erase j ∧
    ∃ b, tasks[j]? = some b ∧
      ((pre = true ∧ ∃ e₀, ctxErr k = some e₀ ∧ s'.results = s.results ∧
          s'.errors = s.errors.set j (some e₀) ∧ s'.panik = s.panik) ∨
       (pre = false ∧ s'.results = s.results.set j (convertRecv b).1 ∧
          s'.errors = s.errors.set j (convertRecv b).2 ∧
          s'.panik = firstSome s.panik (payloadOf? b))) := by
  simp only [doStep] at h
  split at h
  case isFalse => exact absurd h (by simp)
  case isTrue hmem =>
    split at h
    case h_2 => exact absurd h (by simp)
    case h_1 b htask =>
      split at h
      case isTrue hpre =>
        split at h
        case h_2 => exact absurd h (by simp)
        case h_1 e₀ hctx =>
          rw [Option.some_inj] at h
          subst h
          exact ⟨hmem, rfl, rfl, b, htask, Or.inl ⟨hpre, e₀, hctx, rfl, rfl, rfl⟩⟩
      case isFalse hpre =>
        rw [Option.some_inj] at h
        subst h
        have hp : pre = false := by
          cases pre
          · rfl
          · exact absurd rfl hpre
        exact ⟨hmem, rfl, rfl, b, htask, Or.inr ⟨hp, rfl, rfl, rfl⟩⟩

/-- Frame property: once a slot has settled, no later event of a valid
trace rewrites it — each index is written by exactly one worker exactly
once. -/
theorem runTrace_frame {k : CtxKind} {cap : Nat} {tasks : List Behavior} :
    ∀ {trace : List Ev} {s s' : St} {i : Nat}, ExecInv k tasks s →
      runTrace k cap tasks s trace = some s' → i < s.next → i ∉ s.inflight →
      s'.results[i]? = s.results[i]? ∧ s'.errors[i]? = s.errors[i]? := by
  intro trace
  induction trace with
  | nil =>
    intro s s' i _ h hi hnm
    rw [runTrace, Option.some_inj] at h
    subst h
    exact ⟨rfl, rfl⟩
  | cons e rest ih =>
    intro s s' i hs h hi hnm
    rw [runTrace] at h
    cases hstep : doStep k cap tasks s e with
    | none => rw [hstep] at h; exact absurd h (by simp)
    | some s₁ =>
      rw [hstep] at h
      have hs₁ := doStep_inv hs hstep
      cases e with
      | launch =>
        obtain ⟨hnext, hcap, hsh⟩ := doStep_launch_shape hstep
        subst hsh
        have hnm' : i ∉ s.inflight ++ [s.next] := by
          intro hm
          rcases (by simpa using hm : i ∈ s.inflight ∨ i = s.next) with hm' | hm'
          · exact hnm hm'
          · exact absurd (hm' ▸ hi) (Nat.lt_irrefl s.next)
        have hres := ih hs₁ h (Nat.lt_succ_of_lt hi) hnm'
        exact hres
      | finish j pre =>
        obtain ⟨hmem, hnext₁, hinfl₁, b₀, htask₀, hbr⟩ := doStep_finish_shape hstep
        have hji : j ≠ i := fun he => hnm (he ▸ hmem)
        have hlt₁ : i < s₁.next := by rw [hnext₁]; exact hi
        have hnm₁ : i ∉ s₁.inflight := by
          rw [hinfl₁]
          intro hm
          exact hnm (List.mem_of_mem_erase hm)
        obtain ⟨h1, h2⟩ := ih hs₁ h hlt₁ hnm₁
        rcases hbr with ⟨_, e₀, _, hres, herr, _⟩ | ⟨_, hres, herr, _⟩
        · exact ⟨by rw [h1, hres], by rw [h2, herr, List.getElem?_set_ne hji]⟩
        · exact ⟨by rw [h1, hres, List.getElem?_set_ne hji],
                 by rw [h2, herr, List.getElem?_set_ne hji]⟩

/-- Recording property: a task pending (in flight or not yet launched)
at the start of a valid trace that settles by the end, and whose worker
is never preempted in that trace, ends with exactly its channel pair at
its index — and the trace contains its non-preempted finish event. -/
theorem runTrace_records {k : CtxKind} {cap : Nat} {tasks : List Behavior} :
    ∀ {trace : List Ev} {s s' : St} {i : Nat} {b : Behavior}, ExecInv k tasks s →
      runTrace k cap tasks s trace = some s' →
      tasks[i]? = some b →
      (i ∈ s.inflight ∨ s.next ≤ i) →
      Ev.finish i true ∉ trace →
      i ∉ s'.inflight → i < s'.next →
      s'.results[i]? = some (convertRecv b).1 ∧ s'.errors[i]? = some (convertRecv b).2 ∧
      Ev.finish i false ∈ trace := by
  intro trace
  induction trace with
  | nil =>
    intro s s' i b _ h _ hstat _ hnm hlt
    rw [runTrace, Option.some_inj] at h
    subst h
    rcases hstat with hm | hge
    · exact absurd hm hnm
    · exact absurd hlt (Nat.not_lt_of_le hge)
  | cons e rest ih =>
    intro s s' i b hs h htask hstat hnp hnm hlt
    rw [runTrace] at h
    cases hstep : doStep k cap tasks s e with
    | none => rw [hstep] at h; exact absurd h (by simp)
    | some s₁ =>
      rw [hstep] at h
      have hs₁ := doStep_inv hs hstep
      have hnp' : Ev.finish i true ∉ rest := fun hm => hnp (List.mem_cons_of_mem _ hm)
      cases e with
      | launch =>
        obtain ⟨hnext, hcap, hsh⟩ := doStep_launch_shape hstep
        subst hsh
        have hstat' : i ∈ s.inflight ++ [s.next] ∨ s.next + 1 ≤ i := by
          rcases hstat with hm | hge
          · exact Or.inl (List.mem_append_left _ hm)
          · rcases Nat.eq_or_lt_of_le hge with he | hlt'
            · exact Or.inl (List.mem_append_right _ (by simp [he]))
            · exact Or.inr hlt'
        obtain ⟨h1, h2, h3⟩ := ih hs₁ h htask hstat' hnp' hnm hlt
        exact ⟨h1, h2, List.mem_cons_of_mem _ h3⟩
      | finish j pre =>
        obtain ⟨hmem, hnext₁, hinfl₁, b₀, htask₀, hbr⟩ := doStep_finish_shape hstep
        by_cases hji : j = i
        · subst hji
          have hb : b₀ = b := Option.some_inj.mp (htask₀.symm.trans htask)
          subst hb
          rcases hbr with ⟨hp, e₀, hctx, hres, herr, hpan⟩ | ⟨hp, hres, herr, hpan⟩
          · subst hp
            exact absurd (List.mem_cons_self _ _) hnp
          · subst hp
            have hjlen : j < tasks.length := Nat.lt_of_lt_of_le (hs.flightLt j hmem) hs.nextLe
            have hset1 : s₁.results[j]? = some (convertRecv b₀).1 := by
              rw [hres]
              exact List.getElem?_set_self (by rw [hs.lenR]; exact hjlen)
            have hset2 : s₁.errors[j]? = some (convertRecv b₀).2 := by
              rw [herr]
              exact List.getElem?_set_self (by rw [hs.lenE]; exact hjlen)
            have hnm₁ : j ∉ s₁.inflight := by
              rw [hinfl₁]
              intro hm
              exact ((hs.flightNodup.mem_erase_iff).mp hm).1 rfl
            have hlt₁ : j < s₁.next := by rw [hnext₁]; exact hs.flightLt j hmem
            obtain ⟨hf1, hf2⟩ := runTrace_frame hs₁ h hlt₁ hnm₁
            exact ⟨by rw [hf1, hset1], by rw [hf2, hset2], List.mem_cons_self _ _⟩
        · have hij : i ≠ j := fun he => hji he.symm
          have hstat₁ : i ∈ s₁.inflight ∨ s₁.next ≤ i := by
            rcases hstat with hm | hge
            · exact Or.inl (by
                rw [hinfl₁]
                exact (hs.flightNodup.mem_erase_iff).mpr ⟨hij, hm⟩)
            · exact Or.inr (by rw [hnext₁]; exact hge)
          obtain ⟨h1, h2, h3⟩ := ih hs₁ h htask hstat₁ hnp' hnm hlt
          exact ⟨h1, h2, List.mem_cons_of_mem _ h3⟩

/-- Characterization of a normal (non-panicking) `DoContext` return:
both slices have the task count's length, and the slot of every
submitted task holds either exactly the pair that task sent through
`convert`'s channel, or — only if the context can fire — the context's
error with the result slot untouched. -/
theorem DoContextRun_ok_char {k : CtxKind} {conc : Int} {tasks : List Behavior}
    {trace : List Ev} {rs : List (Option Val)} {es : List (Option Err)}
    (h : DoContextRun k conc tasks trace = some (.ok rs es)) :
    rs.length = tasks.length ∧ es.length = tasks.length ∧
    ∀ (i : Nat) (b : Behavior), tasks[i]? = some b →
      ((rs[i]? = some (convertRecv b).1 ∧ es[i]? = some (convertRecv b).2) ∨
       (∃ e, ctxErr k = some e ∧ rs[i]? = some none ∧ es[i]? = some (some e))) := by
  unfold DoContextRun at h
  split at h
  case h_2 => exact absurd h (by simp)
  case h_1 s hrun =>
    split at h
    case isFalse => exact absurd h (by simp)
    case isTrue hterm =>
      rw [Option.some_inj] at h
      have hinv := runTrace_inv (initSt_inv k tasks) hrun
      have hpanik : s.panik = none := by
        cases hp : s.panik with
        | none => rfl
        | some q => rw [finishOut, hp] at h; exact absurd h (by simp)
      simp only [finishOut, hpanik, RunOut.ok.injEq] at h
      obtain ⟨hrs, hes⟩ := h
      subst hrs
      subst hes
      refine ⟨hinv.lenR, hinv.lenE, ?_⟩
      intro i b htask
      have hi : i < tasks.length := by
        rw [List.getElem?_eq_some] at htask
        exact htask.1
      have hi' : i < s.next := hterm.1 ▸ hi
      have hnm : i ∉ s.inflight := by rw [hterm.2]; simp
      obtain ⟨b', hb', hchar⟩ := hinv.settled i hi' hnm
      rw [htask, Option.some_inj] at hb'
      subst hb'
      exact hchar

/-- Inverting the remap stage of `ParalyzeWithTimeout`/`ParalyzeWithCancel`:
a normal return of the wrapper is a normal return of the executor with
the error slice passed through the remapping loop. -/
theorem remap_ok_inv {src tgt : Err} {o : Option RunOut}
    {rs : List (Option Val)} {es : List (Option Err)}
    (h : o.map (remapOut src tgt) = some (.ok rs es)) :
    ∃ es₀, o = some (.ok rs es₀) ∧ es = es₀.map (remapErr src tgt) := by
  cases o with
  | none => exact absurd h (by simp)
  | some out =>
    cases out with
    | panicked p => exact absurd h (by simp [remapOut])
    | ok rs₀ es₀ =>
      simp only [Option.map_some', remapOut, Option.some_inj, RunOut.ok.injEq] at h
      exact ⟨es₀, by rw [h.1], h.2.symm⟩

/-! ### The claims -/

/-- C1: for every call and every scheduler interleaving that returns
normally, the values and errors slices both have the submitted tasks'
length, and the pair recorded at index `i` is the outcome of submitted
task `i` itself — the pair task `i` sent on its channel or (only under a
context that can fire) the context's cancellation error — never the
outcome of another task, regardless of the order in which tasks
complete (the trace quantifier ranges over all completion orders). -/
theorem c1_lengths_and_order_invariance {k : CtxKind} {conc : Int} {tasks : List Behavior}
    {trace : List Ev} {rs : List (Option Val)} {es : List (Option Err)}
    (h : DoContextRun k conc tasks trace = some (.ok rs es)) :
    rs.length = tasks.length ∧ es.length = tasks.length ∧
    ∀ (i : Nat) (b : Behavior), tasks[i]? = some b →
      ((rs[i]? = some (convertRecv b).1 ∧ es[i]? = some (convertRecv b).2) ∨
       (∃ e, ctxErr k = some e ∧ rs[i]? = some none ∧ es[i]? = some (some e))) :=
  DoContextRun_ok_char h

/-- Witness for C1 at a concrete input: two tasks completing in reverse
order still land at their own indices, and both slices have length 2. -/
theorem c1_witness :
    DoContextRun .background 0 [Behavior.ret (some 1) none, Behavior.ret none (some (Err.user 0))]
      [Ev.launch, Ev.launch, Ev.finish 1 false, Ev.finish 0 false] =
      some (RunOut.ok [some 1, none] [none, some (Err.user 0)]) ∧
    ([some 1, none] : List (Option Val)).length = 2 ∧
    ([none, some (Err.user 0)] : List (Option Err)).length = 2 :=
  ⟨by decide,
   (c1_lengths_and_order_invariance (by decide :
      DoContextRun .background 0 [Behavior.ret (some 1) none, Behavior.ret none (some (Err.user 0))]
        [Ev.launch, Ev.launch, Ev.finish 1 false, Ev.finish 0 false] =
        some (RunOut.ok [some 1, none] [none, some (Err.user 0)]))).1,
   (c1_lengths_and_order_invariance (by decide :
      DoContextRun .background 0 [Behavior.ret (some 1) none, Behavior.ret none (some (Err.user 0))]
        [Ev.launch, Ev.launch, Ev.finish 1 false, Ev.finish 0 false] =
        some (RunOut.ok [some 1, none] [none, some (Err.user 0)]))).2.1⟩

/-- C5 counterexample: task 0 runs to completion returning both a value
and an error, and the executor records both at index 0 (so "exactly one
of value/error is populated per completed task" fails); task 1 runs to
completion returning neither, and both slots at index 1 are absent even
though nothing was canceled (so "both may be absent only when canceled
before completion" fails too).  The executor's own doc comment states
the recorded pair is not mutually exclusive. -/
theorem c5_counterexample :
    ParalyzeRun [Behavior.ret (some 1) (some (Err.user 0)), Behavior.ret none none]
      [Ev.launch, Ev.launch, Ev.finish 0 false, Ev.finish 1 false] =
      some (RunOut.ok [some 1, none] [some (Err.user 0), none]) ∧
    (some 1 : Option Val) ≠ none ∧ (some (Err.user 0) : Option Err) ≠ none := by
  decide

/-- C5 (amended): the pair recorded at a completed index is exactly the
pair the task returned — mutually exclusive only if the task's own
return was; a preempted index always has its error slot populated with
the context error, so both slots are absent only when the task itself
returned neither a value nor an error. -/
theorem c5_amended_recorded_pairs {k : CtxKind} {conc : Int} {tasks : List Behavior}
    {trace : List Ev} {rs : List (Option Val)} {es : List (Option Err)}
    (h : DoContextRun k conc tasks trace = some (.ok rs es)) :
    ∀ (i : Nat) (b : Behavior), tasks[i]? = some b →
      (((rs[i]? = some (convertRecv b).1 ∧ es[i]? = some (convertRecv b).2) ∨
        (∃ e, ctxErr k = some e ∧ rs[i]? = some none ∧ es[i]? = some (some e))) ∧
       (rs[i]? = some none ∧ es[i]? = some none → b = .ret none none)) := by
  intro i b htask
  have hchar := (DoContextRun_ok_char h).2.2 i b htask
  refine ⟨hchar, ?_⟩
  intro hboth
  rcases hchar with ⟨h1, h2⟩ | ⟨e, he, h1, h2⟩
  · rw [hboth.2, Option.some_inj] at h2
    rw [hboth.1, Option.some_inj] at h1
    cases b with
    | ret r e =>
      simp only [convertRecv] at h1 h2
      rw [← h1, ← h2]
    | panics p => exact absurd h2.symm (by simp [convertRecv])
  · rw [hboth.2, Option.some_inj] at h2
    exact absurd h2.symm (by simp)

/-- Witness for C5's amended theorem: a task returning `(nil, nil)` is
the only completed shape with both slots absent. -/
theorem c5_witness :
    ParalyzeRun [Behavior.ret none none] [Ev.launch, Ev.finish 0 false] =
      some (RunOut.ok [none] [none]) ∧
    Behavior.ret none none = Behavior.ret none none :=
  ⟨by decide,
   ((c5_amended_recorded_pairs (by decide :
        ParalyzeRun [Behavior.ret none none] [Ev.launch, Ev.finish 0 false] =
          some (RunOut.ok [none] [none]))) 0 (Behavior.ret none none) (by decide)).2
     (by decide)⟩

/-- C3 counterexample: a task that itself returns the
`context.DeadlineExceeded` sentinel and runs to completion (its finish
event is not preempted) has its reported error rewritten to the
timed-out sentinel by `ParalyzeWithTimeout`'s remapping loop — the
error is not returned unmodified, and the timed-out sentinel arose from
a value a task returned rather than from the duration elapsing. -/
theorem c3_counterexample :
    ParalyzeWithTimeoutRun 1 [Behavior.ret none (some Err.ctxDeadlineExceeded)]
      [Ev.launch, Ev.finish 0 false] =
      some (RunOut.ok [none] [some Err.timedOut]) ∧
    Err.timedOut ≠ Err.ctxDeadlineExceeded := by
  decide

/-- C3 (amended): task-reported errors are passed through unmodified
except those equal to the context sentinel the entry point remaps —
`Paralyze` passes every reported error through untouched; under
`ParalyzeWithTimeout` each error slot holds either the task's reported
error filtered through the DeadlineExceeded-to-timed-out remap or, from
preemption, the timed-out sentinel with the result slot untouched; under
`ParalyzeWithCancel` analogously with Canceled-to-canceled.  Thus the
timed-out (resp. canceled) sentinel can arise from a task returning the
corresponding sentinel as well as from the duration elapsing (trigger
firing). -/
theorem c3_amended_error_taxonomy (tasks : List Behavior) :
    (∀ (trace : List Ev) (rs : List (Option Val)) (es : List (Option Err)),
       ParalyzeRun tasks trace = some (.ok rs es) →
       ∀ (i : Nat) (b : Behavior), tasks[i]? = some b →
         es[i]? = some (convertRecv b).2) ∧
    (∀ (d : Int) (trace : List Ev) (rs : List (Option Val)) (es : List (Option Err)),
       d ≠ 0 → ParalyzeWithTimeoutRun d tasks trace = some (.ok rs es) →
       ∀ (i : Nat) (b : Behavior), tasks[i]? = some b →
         es[i]? = some (remapErr .ctxDeadlineExceeded .timedOut (convertRecv b).2) ∨
         (rs[i]? = some none ∧ es[i]? = some (some Err.timedOut))) ∧
    (∀ (trace : List Ev) (rs : List (Option Val)) (es : List (Option Err)),
       ParalyzeWithCancelRun tasks trace = some (.ok rs es) →
       ∀ (i : Nat) (b : Behavior), tasks[i]? = some b →
         es[i]? = some (remapErr .ctxCanceled .canceled (convertRecv b).2) ∨
         (rs[i]? = some none ∧ es[i]? = some (some Err.canceled))) := by
  refine ⟨?_, ?_, ?_⟩
  · intro trace rs es h i b htask
    rcases (DoContextRun_ok_char h).2.2 i b htask with ⟨_, h2⟩ | ⟨e, he, _, _⟩
    · exact h2
    · exact absurd he (by simp [ctxErr])
  · intro d trace rs es hd h i b htask
    rw [ParalyzeWithTimeoutRun, if_neg hd] at h
    obtain ⟨es₀, h₀, hes⟩ := remap_ok_inv h
    subst hes
    rcases (DoContextRun_ok_char h₀).2.2 i b htask with ⟨_, h2⟩ | ⟨e, he, h1, h2⟩
    · left
      rw [List.getElem?_map, h2, Option.map_some']
    · right
      have he' : e = Err.ctxDeadlineExceeded := by
        simpa [ctxErr] using he.symm
      subst he'
      refine ⟨h1, ?_⟩
      rw [List.getElem?_map, h2, Option.map_some']
      rfl
  · intro trace rs es h i b htask
    rw [ParalyzeWithCancelRun] at h
    obtain ⟨es₀, h₀, hes⟩ := remap_ok_inv h
    subst hes
    rcases (DoContextRun_ok_char h₀).2.2 i b htask with ⟨_, h2⟩ | ⟨e, he, h1, h2⟩
    · left
      rw [List.getElem?_map, h2, Option.map_some']
    · right
      have he' : e = Err.ctxCanceled := by
        simpa [ctxErr] using he.symm
      subst he'
      refine ⟨h1, ?_⟩
      rw [List.getElem?_map, h2, Option.map_some']
      rfl

/-- Witness for C3's amended theorem: a plain user error passes through
all three entry points unmodified at its index. -/
theorem c3_witness :
    ([some (Err.user 1)] : List (Option Err))[0]? =
      some (convertRecv (Behavior.ret none (some (Err.user 1)))).2 ∧
    (([some (Err.user 1)] : List (Option Err))[0]? =
       some (remapErr .ctxDeadlineExceeded .timedOut
         (convertRecv (Behavior.ret none (some (Err.user 1)))).2) ∨
     (([none] : List (Option Val))[0]? = some none ∧
      ([some (Err.user 1)] : List (Option Err))[0]? = some (some Err.timedOut))) ∧
    (([some (Err.user 1)] : List (Option Err))[0]? =
       some (remapErr .ctxCanceled .canceled
         (convertRecv (Behavior.ret none (some (Err.user 1)))).2) ∨
     (([none] : List (Option Val))[0]? = some none ∧
      ([some (Err.user 1)] : List (Option Err))[0]? = some (some Err.canceled))) :=
  ⟨(c3_amended_error_taxonomy [Behavior.ret none (some (Err.user 1))]).1
     [Ev.launch, Ev.finish 0 false] [none] [some (Err.user 1)] (by decide)
     0 (Behavior.ret none (some (Err.user 1))) (by decide),
   (c3_amended_error_taxonomy [Behavior.ret none (some (Err.user 1))]).2.1
     2 [Ev.launch, Ev.finish 0 false] [none] [some (Err.user 1)] (by decide) (by decide)
     0 (Behavior.ret none (some (Err.user 1))) (by decide),
   (c3_amended_error_taxonomy [Behavior.ret none (some (Err.user 1))]).2.2
     [Ev.launch, Ev.finish 0 false] [none] [some (Err.user 1)] (by decide)
     0 (Behavior.ret none (some (Err.user 1))) (by decide)⟩

/-- C6: a zero timeout takes the `Paralyze` branch verbatim, and under
the `Background` context of that branch the cancellation signal can
never fire — any trace containing a preemption event is not a valid
execution of the plain call, so the returned values and errors are
exactly those of `Paralyze` on the same tasks and schedule. -/
theorem c6_zero_timeout_is_plain_call (tasks : List Behavior) :
    (∀ trace : List Ev, ParalyzeWithTimeoutRun 0 tasks trace = ParalyzeRun tasks trace) ∧
    (∀ (trace : List Ev) (i : Nat), Ev.finish i true ∈ trace →
       ParalyzeRun tasks trace = none) := by
  constructor
  · intro trace
    rw [ParalyzeWithTimeoutRun, if_pos rfl]
  · intro trace i hmem
    unfold ParalyzeRun DoContextRun
    rw [runTrace_background_no_pre _ _ _ _ i hmem]

/-- Witness for C6 at a concrete input: the zero-timeout call coincides
with the plain call, and a trace trying to preempt is invalid for it. -/
theorem c6_witness :
    ParalyzeWithTimeoutRun 0 [Behavior.ret (some 5) none] [Ev.launch, Ev.finish 0 false] =
      ParalyzeRun [Behavior.ret (some 5) none] [Ev.launch, Ev.finish 0 false] ∧
    ParalyzeRun [Behavior.ret (some 5) none] [Ev.launch, Ev.finish 0 true] = none :=
  ⟨(c6_zero_timeout_is_plain_call [Behavior.ret (some 5) none]).1 _,
   (c6_zero_timeout_is_plain_call [Behavior.ret (some 5) none]).2
     [Ev.launch, Ev.finish 0 true] 0 (by decide)⟩

/-- C10: `ParalyzeWithTimeout` compares its duration only against zero,
so a negative duration is not rejected with any invalid-parameter error:
it takes exactly the timed path — the same path any positive duration
takes — where the already-expired deadline lets preemption events fire
from the start. -/
theorem c10_negative_timeout_not_validated (d : Int) (hd : d < 0)
    (tasks : List Behavior) (trace : List Ev) :
    ParalyzeWithTimeoutRun d tasks trace =
      (DoContextRun .deadline 0 tasks trace).map (remapOut .ctxDeadlineExceeded .timedOut) ∧
    ParalyzeWithTimeoutRun d tasks trace = ParalyzeWithTimeoutRun 1 tasks trace := by
  have hne : d ≠ 0 := by omega
  constructor
  · rw [ParalyzeWithTimeoutRun, if_neg hne]
  · rw [ParalyzeWithTimeoutRun, if_neg hne, ParalyzeWithTimeoutRun,
        if_neg (by decide : (1 : Int) ≠ 0)]

/-- Witness for C10 at a concrete input: duration −5 behaves exactly as
duration 1 on the same schedule, and a preemption on entry (the expired
deadline) marks the slot timed-out. -/
theorem c10_witness :
    ParalyzeWithTimeoutRun (-5) [Behavior.ret (some 1) none] [Ev.launch, Ev.finish 0 true] =
      ParalyzeWithTimeoutRun 1 [Behavior.ret (some 1) none] [Ev.launch, Ev.finish 0 true] ∧
    ParalyzeWithTimeoutRun (-5) [Behavior.ret (some 1) none] [Ev.launch, Ev.finish 0 true] =
      some (RunOut.ok [none] [some Err.timedOut]) :=
  ⟨(c10_negative_timeout_not_validated (-5) (by decide) [Behavior.ret (some 1) none]
      [Ev.launch, Ev.finish 0 true]).2,
   by decide⟩

/-- C8: with a positive concurrency limit `k`, every state reachable in
a `ParalyzeLimit` run holds at most `k` semaphore slots — at most `k`
tasks are ever concurrently in flight — and any normally-returning
schedule of the limited call produces exactly the same values and errors
slices as any normally-returning schedule of the unbounded `Paralyze`
call on the same tasks. -/
theorem c8_limit_bound_and_unbounded_equiv (k : Int) (hk : 0 < k) (tasks : List Behavior) :
    (∀ (trace : List Ev) (s' : St),
       runTrace .background (capOf k tasks.length) tasks (initSt tasks.length) trace = some s' →
       s'.inflight.length ≤ k.toNat) ∧
    (∀ (trace trace' : List Ev) (rs rs' : List (Option Val)) (es es' : List (Option Err)),
       ParalyzeLimitRun k tasks trace = some (.ok rs es) →
       ParalyzeRun tasks trace' = some (.ok rs' es') →
       rs = rs' ∧ es = es') := by
  constructor
  · intro trace s' h
    rw [capOf, if_pos hk] at h
    exact runTrace_flight_le (by simp [initSt]) h
  · intro trace trace' rs rs' es es' h h'
    obtain ⟨hrl, hel, hchar⟩ := DoContextRun_ok_char h
    obtain ⟨hrl', hel', hchar'⟩ := DoContextRun_ok_char h'
    have hpt : ∀ (i : Nat) (b : Behavior), tasks[i]? = some b →
        rs[i]? = some (convertRecv b).1 ∧ es[i]? = some (convertRecv b).2 := by
      intro i b htask
      rcases hchar i b htask with hc | ⟨e, he, _, _⟩
      · exact hc
      · exact absurd he (by simp [ctxErr])
    have hpt' : ∀ (i : Nat) (b : Behavior), tasks[i]? = some b →
        rs'[i]? = some (convertRecv b).1 ∧ es'[i]? = some (convertRecv b).2 := by
      intro i b htask
      rcases hchar' i b htask with hc | ⟨e, he, _, _⟩
      · exact hc
      · exact absurd he (by simp [ctxErr])
    constructor
    · apply List.ext_getElem?_iff.mpr
      intro i
      by_cases hi : i < tasks.length
      · have hb : tasks[i]? = some tasks[i] := List.getElem?_eq_getElem hi
        rw [(hpt i _ hb).1, (hpt' i _ hb).1]
      · rw [List.getElem?_eq_none (by rw [hrl]; exact Nat.le_of_not_lt hi),
            List.getElem?_eq_none (by rw [hrl']; exact Nat.le_of_not_lt hi)]
    · apply List.ext_getElem?_iff.mpr
      intro i
      by_cases hi : i < tasks.length
      · have hb : tasks[i]? = some tasks[i] := List.getElem?_eq_getElem hi
        rw [(hpt i _ hb).2, (hpt' i _ hb).2]
      · rw [List.getElem?_eq_none (by rw [hel]; exact Nat.le_of_not_lt hi),
            List.getElem?_eq_none (by rw [hel']; exact Nat.le_of_not_lt hi)]

/-- Witness for C8 at a concrete input: with limit 1 the state after one
launch holds one slot (≤ 1), and the serialized limited schedule returns
the same slices as an out-of-order unbounded schedule. -/
theorem c8_witness :
    (⟨1, [0], [none, none], [none, none], none⟩ : St).inflight.length ≤ (1 : Int).toNat ∧
    ([some 1, some 2] : List (Option Val)) = [some 1, some 2] ∧
    ([none, none] : List (Option Err)) = [none, none] :=
  ⟨(c8_limit_bound_and_unbounded_equiv 1 (by decide)
      [Behavior.ret (some 1) none, Behavior.ret (some 2) none]).1
     [Ev.launch] ⟨1, [0], [none, none], [none, none], none⟩ (by decide),
   ((c8_limit_bound_and_unbounded_equiv 1 (by decide)
      [Behavior.ret (some 1) none, Behavior.ret (some 2) none]).2
     [Ev.launch, Ev.finish 0 false, Ev.launch, Ev.finish 1 false]
     [Ev.launch, Ev.launch, Ev.finish 1 false, Ev.finish 0 false]
     [some 1, some 2] [some 1, some 2] [none, none] [none, none]
     (by decide) (by decide)).1,
   ((c8_limit_bound_and_unbounded_equiv 1 (by decide)
      [Behavior.ret (some 1) none, Behavior.ret (some 2) none]).2
     [Ev.launch, Ev.finish 0 false, Ev.launch, Ev.finish 1 false]
     [Ev.launch, Ev.launch, Ev.finish 1 false, Ev.finish 0 false]
     [some 1, some 2] [some 1, some 2] [none, none] [none, none]
     (by decide) (by decide)).2⟩

/-- C4 counterexample: under `ParalyzeWithTimeout` a task that panics
only after the deadline has fired is preempted — its worker's `select`
is won by `ctx.Done()`, so index 0 records the timed-out sentinel
rather than the fault, the recovered `ErrPanic` sits unread in the
buffered channel, the capture stays empty, and the call returns
normally instead of terminating abnormally with the payload.  So "each
fault is recorded at its index and the call terminates abnormally" is
false for calls whose cancellation signal can fire. -/
theorem c4_counterexample :
    ParalyzeWithTimeoutRun 1 [Behavior.panics 42] [Ev.launch, Ev.finish 0 true] =
      some (RunOut.ok [none] [some Err.timedOut]) ∧
    (some Err.timedOut : Option Err) ≠ some (Err.panicked 42) ∧
    (RunOut.ok [none] [some Err.timedOut] : RunOut) ≠ RunOut.panicked 42 := by
  decide

/-- C4 (amended): in any call whose workers all settle, every panicking
task whose worker is never preempted by the cancellation signal has its
fault caught and recorded as the `ErrPanic` carrier at its own index
(its non-preempted finish is in the trace); and provided at least one
fault is delivered non-preempted, the call itself terminates abnormally
with exactly one payload — the first payload any worker offered to the
first-writer-wins capture, in settle order — superseding the
otherwise-ready slices, even if multiple tasks fault concurrently.  (A
panicking task preempted by cancellation instead records the
cancellation error and its payload is discarded.) -/
theorem c4_amended_fault_capture {k : CtxKind} {conc : Int} {tasks : List Behavior}
    {trace : List Ev} {s' : St}
    (h : runTrace k (capOf conc tasks.length) tasks (initSt tasks.length) trace = some s')
    (hterm : s'.next = tasks.length) (hflight : s'.inflight = [])
    (hp : ∃ (i : Nat) (p : Val), tasks[i]? = some (.panics p) ∧ Ev.finish i true ∉ trace) :
    (∀ (i : Nat) (p : Val), tasks[i]? = some (.panics p) → Ev.finish i true ∉ trace →
       s'.errors[i]? = some (some (.panicked p)) ∧ Ev.finish i false ∈ trace) ∧
    (∃ q, s'.panik = some q ∧
       (trace.filterMap (evCapture tasks)).head? = some q ∧
       DoContextRun k conc tasks trace = some (.panicked q)) := by
  have hinit := initSt_inv k tasks
  have hrec : ∀ (i : Nat) (p : Val), tasks[i]? = some (.panics p) → Ev.finish i true ∉ trace →
      s'.errors[i]? = some (some (.panicked p)) ∧ Ev.finish i false ∈ trace := by
    intro i p htask hnp
    have hi : i < tasks.length := by
      rw [List.getElem?_eq_some] at htask
      exact htask.1
    have hrecords := runTrace_records hinit h htask (Or.inr (Nat.zero_le i)) hnp
      (by rw [hflight]; simp) (by rw [hterm]; exact hi)
    exact ⟨by simpa [convertRecv] using hrecords.2.1, hrecords.2.2⟩
  refine ⟨hrec, ?_⟩
  obtain ⟨i₀, p₀, hi₀, hnp₀⟩ := hp
  have hfin := (hrec i₀ p₀ hi₀ hnp₀).2
  have hmemf : p₀ ∈ trace.filterMap (evCapture tasks) :=
    List.mem_filterMap.mpr ⟨Ev.finish i₀ false, hfin, by simp [evCapture, hi₀, payloadOf?]⟩
  cases hl : trace.filterMap (evCapture tasks) with
  | nil => rw [hl] at hmemf; exact absurd hmemf (by simp)
  | cons q qs =>
    have hpan := runTrace_panik h
    rw [hl] at hpan
    have hq : s'.panik = some q := by simpa [initSt, firstSome] using hpan
    refine ⟨q, hq, rfl, ?_⟩
    unfold DoContextRun
    rw [h]
    show (if s'.next = tasks.length ∧ s'.inflight = [] then some (finishOut s') else none) =
      some (RunOut.panicked q)
    rw [if_pos ⟨hterm, hflight⟩, finishOut, hq]

/-- Witness for C4's amended theorem at a concrete input under the
timeout context: task 1's fault is delivered non-preempted and recorded
at its index with its payload captured, task 0 panics but is preempted
(its slot records the context error, its payload is discarded), and the
call terminates abnormally with exactly the one captured payload 9. -/
theorem c4_witness :
    (⟨2, [], [none, none], [some Err.ctxDeadlineExceeded, some (Err.panicked 9)], some 9⟩ :
      St).errors[1]? = some (some (Err.panicked 9)) ∧
    Ev.finish 1 false ∈ [Ev.launch, Ev.launch, Ev.finish 1 false, Ev.finish 0 true] ∧
    DoContextRun .deadline 0 [Behavior.panics 7, Behavior.panics 9]
      [Ev.launch, Ev.launch, Ev.finish 1 false, Ev.finish 0 true] =
      some (RunOut.panicked 9) := by
  have hmain := @c4_amended_fault_capture .deadline 0 [Behavior.panics 7, Behavior.panics 9]
    [Ev.launch, Ev.launch, Ev.finish 1 false, Ev.finish 0 true]
    ⟨2, [], [none, none], [some Err.ctxDeadlineExceeded, some (Err.panicked 9)], some 9⟩
    (by decide) (by decide) (by decide) ⟨1, 9, by decide, by decide⟩
  refine ⟨(hmain.1 1 9 (by decide) (by decide)).1, (hmain.1 1 9 (by decide) (by decide)).2, ?_⟩
  obtain ⟨q, hqv, hhead, hrun⟩ := hmain.2
  have hq9 : q = 9 := by
    have h9 : some q = some 9 := by
      rw [← hhead]
      decide
    exact Option.some_inj.mp h9
  rw [hq9] at hrun
  exact hrun

/-- Everything `specLoop` can return normally is either the exhaustion
sentinel produced by falling off the candidate loop, or the exact
`(value, error)` pair of some launched candidate received from the
shared buffered channel — including candidates abandoned by an earlier
stagger tick, whose send stays in the channel. -/
theorem specLoop_return_origin {fb : Bool} {cands : List Behavior} :
    ∀ {sched : List SpecEv} {i : Nat} {delivered : List Nat}
      {r : Option Val} {e : Option Err},
      specLoop fb cands i delivered sched = some (.ok r e) →
      (r = none ∧ e = some Err.paralyzeInternal) ∨
      ∃ j : Nat, cands[j]? = some (Behavior.ret r e) := by
  intro sched
  induction sched with
  | nil =>
    intro i delivered r e h
    simp only [specLoop] at h
    exact absurd h (by simp)
  | cons ev rest ih =>
    intro i delivered r e h
    cases ev with
    | tick =>
      simp only [specLoop] at h
      split at h
      case isTrue => exact ih h
      case isFalse =>
        rw [Option.some_inj] at h
        injection h with h1 h2
        exact Or.inl ⟨h1.symm, h2.symm⟩
    | deliver j =>
      simp only [specLoop] at h
      split at h
      case isFalse => exact absurd h (by simp)
      case isTrue hj =>
        split at h
        case h_2 => exact absurd h (by simp)
        case h_1 r' e' heq =>
          split at h
          case isTrue hfb =>
            split at h
            case isTrue => exact ih h
            case isFalse =>
              rw [Option.some_inj] at h
              injection h with h1 h2
              exact Or.inl ⟨h1.symm, h2.symm⟩
          case isFalse hfb =>
            rw [Option.some_inj] at h
            injection h with h1 h2
            subst h1
            subst h2
            exact Or.inr ⟨j, heq⟩
    | crash j =>
      simp only [specLoop] at h
      split at h
      case isFalse => exact absurd h (by simp)
      case isTrue hj =>
        split at h
        case h_1 p heq => exact absurd h (by simp)
        case h_2 => exact absurd h (by simp)

/-- C2: evaluating `Speculate`'s loop at inputs its own documentation
covers.  With `fallbackOnError` set and every candidate failing, the
always-true guard `i < len(fns)` makes even the last candidate's error
`continue` out of the loop, so the call returns the internal
`errParalyzeError` sentinel instead of the last observed error; the same
sentinel is also returned when the stagger elapses on the still-pending
last candidate — both are reachable in normal operation, not only
through a logic defect. -/
theorem c2_exhaustion_returns_internal_error :
    SpeculateRun 1 true (Behavior.ret none (some (Err.user 5))) [] [SpecEv.deliver 0] =
      some (SpecOut.ok none (some Err.paralyzeInternal)) ∧
    SpeculateRun 1 false (Behavior.ret none (some (Err.user 5))) [] [SpecEv.tick] =
      some (SpecOut.ok none (some Err.paralyzeInternal)) := by
  decide

/-- C7 counterexample: candidate 0 (an erroring task) is abandoned by
the stagger tick at iteration 0; at iteration 1 the `select` receives
candidate 0's outcome from the shared channel and — `fallbackOnError`
being false — returns it.  The abandoned candidate's eventual outcome
is retrieved and becomes the call's returned error in a later
iteration, contradicting the claim that it never can. -/
theorem c7_counterexample :
    SpeculateRun 1 false (Behavior.ret none (some (Err.user 3))) [Behavior.ret (some 7) none]
      [SpecEv.tick, SpecEv.deliver 0] =
      some (SpecOut.ok none (some (Err.user 3))) ∧
    (Err.user 3 : Err) ≠ Err.paralyzeInternal := by
  decide

/-- C7 (amended): when the stagger elapses while the current candidate
is pending, the loop proceeds to launch the next candidate without any
further waiting; the abandoned candidate's outcome however stays in the
shared buffered channel and may be received and returned in a later
iteration — every normal return of the racer is either the exhaustion
sentinel or the exact pair of some launched candidate, not necessarily
the candidate launched in the current iteration. -/
theorem c7_stagger_launch_and_stale_retrieval (fb : Bool) (fn : Behavior)
    (fallbacks : List Behavior) :
    (∀ (i : Nat) (delivered : List Nat) (rest : List SpecEv),
       i + 1 < (fn :: fallbacks).length →
       specLoop fb (fn :: fallbacks) i delivered (SpecEv.tick :: rest) =
         specLoop fb (fn :: fallbacks) (i + 1) delivered rest) ∧
    (∀ (after : Int) (sched : List SpecEv) (r : Option Val) (e : Option Err),
       0 < after →
       SpeculateRun after fb fn fallbacks sched = some (.ok r e) →
       (r = none ∧ e = some Err.paralyzeInternal) ∨
       ∃ j : Nat, (fn :: fallbacks)[j]? = some (Behavior.ret r e)) := by
  constructor
  · intro i delivered rest hi
    simp only [specLoop]
    rw [if_pos hi]
  · intro after sched r e ha h
    rw [SpeculateRun, if_neg (by omega)] at h
    exact specLoop_return_origin h

/-- Witness for C7's amended theorem at the counterexample's input: the
tick at iteration 0 launches candidate 1 immediately, and the returned
pair is candidate 0's — an already-launched, abandoned candidate. -/
theorem c7_witness :
    specLoop false [Behavior.ret none (some (Err.user 3)), Behavior.ret (some 7) none] 0 []
      [SpecEv.tick, SpecEv.deliver 0] =
      specLoop false [Behavior.ret none (some (Err.user 3)), Behavior.ret (some 7) none] 1 []
        [SpecEv.deliver 0] ∧
    ((none = (none : Option Val) ∧ some (Err.user 3) = some Err.paralyzeInternal) ∨
     ∃ j : Nat, ([Behavior.ret none (some (Err.user 3)), Behavior.ret (some 7) none])[j]? =
       some (Behavior.ret none (some (Err.user 3)))) :=
  ⟨(c7_stagger_launch_and_stale_retrieval false (Behavior.ret none (some (Err.user 3)))
      [Behavior.ret (some 7) none]).1 0 [] [SpecEv.deliver 0] (by decide),
   (c7_stagger_launch_and_stale_retrieval false (Behavior.ret none (some (Err.user 3)))
      [Behavior.ret (some 7) none]).2 1 [SpecEv.tick, SpecEv.deliver 0]
     none (some (Err.user 3)) (by decide) (by decide)⟩

/-- C9: the speculative racer has no fault containment.  `makeReq` runs
its candidate with no `recover`, so a panicking candidate's payload
escapes (contrast `convert`, whose deferred `recover` turns the same
behaviour into an `ErrPanic` error value for the executor); a
`Speculate` call whose candidate panics brings the program down with the
raw payload instead of returning an error or capturing the fault. -/
theorem c9_speculate_panic_escapes :
    makeReqRun (Behavior.panics 42) = Except.error 42 ∧
    convertRecv (Behavior.panics 42) = (none, some (Err.panicked 42)) ∧
    SpeculateRun 1 false (Behavior.panics 42) [] [SpecEv.crash 0] =
      some (SpecOut.fatal 42) := by
  refine ⟨rfl, rfl, by decide⟩
